import Mathlib

/-!
# Verification of the generic slice algorithms of `slice.go`

A Go slice `[]T` is embedded as a `List α`.  Go's `==` on a `comparable`
element type is embedded as an arbitrary `BEq α` instance (no lawfulness is
assumed, so every theorem stated with `==` holds for whatever the element
equality is).  Go's `int` is embedded as `Int`: every integer the code
computes lies between `-1` and `len(s)`, so no wrap-around can occur.

An index expression `s[i]` panics in Go when `i` is out of range.  It is
embedded as the total lookup `s[i]?`, and every function that indexes
returns an `Option`, where `none` stands for the panic.

A loop `for i := range s` evaluates `len(s)` once and runs its body for
`i = 0, 1, ..., len(s) - 1`.  It is embedded as a function that recurses on
the number of iterations that remain and carries the current index.
-/

namespace Slice

variable {α : Type}

/-! ## Embedding of `slice.go` -/

/-- Loop of `AdjacentFind` (slice.go 20-27): `k` iterations remain and `i` is
the current index.  `break` leaves the loop and reaches `return -1`. -/
def AdjacentFind.loop [BEq α] (s : List α) : Nat → Nat → Option Int
  | 0, _ => some (-1)
  | k + 1, i =>
    if (i : Int) = (s.length : Int) - 1 then some (-1)
    else
      match s[i]?, s[i + 1]? with
      | some a, some b =>
        if a == b then some (i : Int) else AdjacentFind.loop s k (i + 1)
      | _, _ => none

/-- Embedding of `AdjacentFind` (slice.go 19-29). -/
def AdjacentFind [BEq α] (s : List α) : Option Int :=
  AdjacentFind.loop s s.length 0

/-- Embedding of `AllOf` (slice.go 33-40): `for _, e := range s`. -/
def AllOf : List α → (α → Bool) → Bool
  | [], _ => true
  | e :: s, f => if !f e then false else AllOf s f

/-- Embedding of `AnyOf` (slice.go 44-51): `for _, e := range s`. -/
def AnyOf : List α → (α → Bool) → Bool
  | [], _ => false
  | e :: s, f => if f e then true else AnyOf s f

/-- Loop of `Count` (slice.go 56-60): `k` iterations remain, `i` is the
current index and `ret` the named result. -/
def Count.loop [BEq α] (s : List α) (v : α) : Nat → Nat → Int → Option Int
  | 0, _, ret => some ret
  | k + 1, i, ret =>
    match s[i]? with
    | some a => Count.loop s v k (i + 1) (if a == v then ret + 1 else ret)
    | none => none

/-- Embedding of `Count` (slice.go 55-62); `ret` starts at zero. -/
def Count [BEq α] (s : List α) (v : α) : Option Int :=
  Count.loop s v s.length 0 0

/-- Loop of `CountIf` (slice.go 66-70). -/
def CountIf.loop (s : List α) (f : α → Bool) : Nat → Nat → Int → Option Int
  | 0, _, ret => some ret
  | k + 1, i, ret =>
    match s[i]? with
    | some a => CountIf.loop s f k (i + 1) (if f a then ret + 1 else ret)
    | none => none

/-- Embedding of `CountIf` (slice.go 65-72). -/
def CountIf (s : List α) (f : α → Bool) : Option Int :=
  CountIf.loop s f s.length 0 0

/-- Loop of `Contains` (slice.go 76-80). -/
def Contains.loop [BEq α] (s : List α) (v : α) : Nat → Nat → Option Bool
  | 0, _ => some false
  | k + 1, i =>
    match s[i]? with
    | some a => if a == v then some true else Contains.loop s v k (i + 1)
    | none => none

/-- Embedding of `Contains` (slice.go 75-82). -/
def Contains [BEq α] (s : List α) (v : α) : Option Bool :=
  Contains.loop s v s.length 0

/-- Loop of `Equal` (slice.go 93-97), over the indices of `s1`. -/
def Equal.loop [BEq α] (s1 s2 : List α) : Nat → Nat → Option Bool
  | 0, _ => some true
  | k + 1, i =>
    match s1[i]?, s2[i]? with
    | some a, some b => if a != b then some false else Equal.loop s1 s2 k (i + 1)
    | _, _ => none

/-- Embedding of `Equal` (slice.go 88-100). -/
def Equal [BEq α] (s1 s2 : List α) : Option Bool :=
  if (s1.length : Int) ≠ (s2.length : Int) then some false
  else Equal.loop s1 s2 s1.length 0

/-- Loop of `EqualIf` (slice.go 112-116), over the indices of `s1`. -/
def EqualIf.loop (s1 s2 : List α) (f : α → Bool) : Nat → Nat → Option Bool
  | 0, _ => some true
  | k + 1, i =>
    match s1[i]?, s2[i]? with
    | some a, some b =>
      if f a != f b then some false else EqualIf.loop s1 s2 f k (i + 1)
    | _, _ => none

/-- Embedding of `EqualIf` (slice.go 107-119). -/
def EqualIf (s1 s2 : List α) (f : α → Bool) : Option Bool :=
  if (s1.length : Int) ≠ (s2.length : Int) then some false
  else EqualIf.loop s1 s2 f s1.length 0

/-- Loop of `Find` (slice.go 124-128). -/
def Find.loop [BEq α] (s : List α) (v : α) : Nat → Nat → Option Int
  | 0, _ => some (-1)
  | k + 1, i =>
    match s[i]? with
    | some a => if a == v then some (i : Int) else Find.loop s v k (i + 1)
    | none => none

/-- Embedding of `Find` (slice.go 123-130). -/
def Find [BEq α] (s : List α) (v : α) : Option Int :=
  Find.loop s v s.length 0

/-- Loop of `FindIf` (slice.go 135-139). -/
def FindIf.loop (s : List α) (f : α → Bool) : Nat → Nat → Option Int
  | 0, _ => some (-1)
  | k + 1, i =>
    match s[i]? with
    | some a => if f a then some (i : Int) else FindIf.loop s f k (i + 1)
    | none => none

/-- Embedding of `FindIf` (slice.go 134-141). -/
def FindIf (s : List α) (f : α → Bool) : Option Int :=
  FindIf.loop s f s.length 0

/-- Loop of `ForEach` (slice.go 145-147).  The callback receives `&s[i]`; it
is embedded as the function `f` from the value stored in the slot to the value
it leaves there.  The number of iterations is fixed when the loop starts. -/
def ForEach.loop (f : α → α) : Nat → Nat → List α → Option (List α)
  | 0, _, s => some s
  | k + 1, i, s =>
    match s[i]? with
    | some a => ForEach.loop f k (i + 1) (s.set i (f a))
    | none => none

/-- Embedding of `ForEach` (slice.go 144-148): the slice after the call. -/
def ForEach (s : List α) (f : α → α) : Option (List α) :=
  ForEach.loop f s.length 0 s

/-- Embedding of `Max` (slice.go 151-156). -/
def Max (x y : α) (f : α → α → Bool) : α :=
  if f x y then x else y

/-- Embedding of `NoneOf` (slice.go 160-162). -/
def NoneOf (s : List α) (f : α → Bool) : Bool :=
  !AnyOf s f

/-- Values of a Go floating-point element type as `==` sees them: a number
(only integer-valued ones are needed here) or the not-a-number value. -/
inductive GoFloat64 where
  | num (n : Int)
  | nan

/-- Go's `==` on floating-point values: two numbers are compared by value,
and not-a-number is unequal to every value, itself included. -/
def GoFloat64.eq : GoFloat64 → GoFloat64 → Bool
  | GoFloat64.num a, GoFloat64.num b => a == b
  | _, _ => false

instance : BEq GoFloat64 := ⟨GoFloat64.eq⟩

/-! ## Loop lemmas -/

/-- From index `i` with `k` iterations left and `k + i = len(s)`, the loop of
`AdjacentFind` returns either the first matching index at or after `i`, or
`-1` when no index at or after `i` matches. -/
theorem AdjacentFind_loop_spec [BEq α] (s : List α) :
    ∀ (k i : Nat), k + i = s.length →
      (∃ (r : Nat) (h : r + 1 < s.length),
          AdjacentFind.loop s k i = some (r : Int) ∧ i ≤ r ∧
          (s[r] == s[r + 1]) = true ∧
          ∀ (j : Nat) (hj : j < r), i ≤ j → (s[j] == s[j + 1]) = false)
      ∨ (AdjacentFind.loop s k i = some (-1) ∧
          ∀ (j : Nat) (hj : j + 1 < s.length), i ≤ j → (s[j] == s[j + 1]) = false) := by
  intro k
  induction k with
  | zero =>
    intro i hi
    right
    refine ⟨rfl, ?_⟩
    intro j hj hij
    omega
  | succ k ih =>
    intro i hi
    by_cases hlast : (i : Int) = (s.length : Int) - 1
    · right
      refine ⟨by simp [AdjacentFind.loop, hlast], ?_⟩
      intro j hj hij
      omega
    · have h1 : i + 1 < s.length := by omega
      have h0 : i < s.length := by omega
      by_cases heq : (s[i] == s[i + 1]) = true
      · left
        refine ⟨i, h1, ?_, le_refl i, heq, ?_⟩
        · simp [AdjacentFind.loop, hlast, List.getElem?_eq_getElem h0,
            List.getElem?_eq_getElem h1, heq]
        · intro j hj hij
          omega
      · have hstep : AdjacentFind.loop s (k + 1) i = AdjacentFind.loop s k (i + 1) := by
          simp [AdjacentFind.loop, hlast, List.getElem?_eq_getElem h0,
            List.getElem?_eq_getElem h1, heq]
        rcases ih (i + 1) (by omega) with ⟨r, hr, hres, hir, hm, hmin⟩ | ⟨hres, hnone⟩
        · left
          refine ⟨r, hr, by rw [hstep, hres], by omega, hm, ?_⟩
          intro j hj hij
          by_cases hji : j = i
          · subst hji
            simpa using heq
          · exact hmin j hj (by omega)
        · right
          refine ⟨by rw [hstep, hres], ?_⟩
          intro j hj hij
          by_cases hji : j = i
          · subst hji
            simpa using heq
          · exact hnone j hj (by omega)

/-- The loop of `Find` is the loop of `FindIf` run with the test `x == v`. -/
theorem Find_loop_eq_FindIf_loop [BEq α] (s : List α) (v : α) :
    ∀ (k i : Nat), Find.loop s v k i = FindIf.loop s (fun x => x == v) k i := by
  intro k
  induction k with
  | zero => intro i; rfl
  | succ k ih =>
    intro i
    simp only [Find.loop, FindIf.loop]
    cases s[i]? with
    | none => rfl
    | some a => simp only [ih]

/-- From index `i` with `k` iterations left and `k + i = len(s)`, the loop of
`FindIf` returns either the first index at or after `i` whose element
satisfies `f`, or `-1` when no element at or after `i` satisfies `f`. -/
theorem FindIf_loop_spec (s : List α) (f : α → Bool) :
    ∀ (k i : Nat), k + i = s.length →
      (∃ (r : Nat) (h : r < s.length),
          FindIf.loop s f k i = some (r : Int) ∧ i ≤ r ∧ f s[r] = true ∧
          ∀ (j : Nat) (hj : j < r), i ≤ j → f s[j] = false)
      ∨ (FindIf.loop s f k i = some (-1) ∧
          ∀ (j : Nat) (hj : j < s.length), i ≤ j → f s[j] = false) := by
  intro k
  induction k with
  | zero =>
    intro i hi
    right
    refine ⟨rfl, ?_⟩
    intro j hj hij
    omega
  | succ k ih =>
    intro i hi
    have h0 : i < s.length := by omega
    by_cases hf : f s[i] = true
    · left
      refine ⟨i, h0, ?_, le_refl i, hf, ?_⟩
      · simp [FindIf.loop, List.getElem?_eq_getElem h0, hf]
      · intro j hj hij
        omega
    · have hstep : FindIf.loop s f (k + 1) i = FindIf.loop s f k (i + 1) := by
        simp [FindIf.loop, List.getElem?_eq_getElem h0, hf]
      rcases ih (i + 1) (by omega) with ⟨r, hr, hres, hir, hm, hmin⟩ | ⟨hres, hnone⟩
      · left
        refine ⟨r, hr, by rw [hstep, hres], by omega, hm, ?_⟩
        intro j hj hij
        by_cases hji : j = i
        · subst hji
          simpa using hf
        · exact hmin j hj (by omega)
      · right
        refine ⟨by rw [hstep, hres], ?_⟩
        intro j hj hij
        by_cases hji : j = i
        · subst hji
          simpa using hf
        · exact hnone j hj (by omega)

/-- The first-match scan started at index zero. -/
theorem FindIf_scan (s : List α) (f : α → Bool) :
    (∃ (i : Nat) (h : i < s.length),
        FindIf s f = some (i : Int) ∧ f s[i] = true ∧
        ∀ (j : Nat) (hj : j < i), f s[j] = false)
    ∨ (FindIf s f = some (-1) ∧ ∀ (j : Nat) (hj : j < s.length), f s[j] = false) := by
  rcases FindIf_loop_spec s f s.length 0 (by omega) with
    ⟨r, hr, hres, _, hm, hmin⟩ | ⟨hres, hnone⟩
  · left
    exact ⟨r, hr, hres, hm, fun j hj => hmin j hj (Nat.zero_le j)⟩
  · right
    exact ⟨hres, fun j hj => hnone j hj (Nat.zero_le j)⟩

/-- The sentinel `-1` is returned by the first-match scan exactly when no
element satisfies the test. -/
theorem FindIf_sentinel_iff (s : List α) (f : α → Bool) :
    FindIf s f = some (-1) ↔ ∀ (j : Nat) (hj : j < s.length), f s[j] = false := by
  rcases FindIf_scan s f with ⟨i, hi, hres, hm, _⟩ | ⟨hres, hnone⟩
  · constructor
    · intro h
      rw [hres] at h
      have h2 : (i : Int) = -1 := Option.some.inj h
      omega
    · intro h
      rw [h i hi] at hm
      exact absurd hm (by decide)
  · exact ⟨fun _ => hnone, fun _ => hres⟩

/-- `Find` is `FindIf` run with the test `x == v`. -/
theorem Find_eq_FindIf_test [BEq α] (s : List α) (v : α) :
    Find s v = FindIf s (fun x => x == v) :=
  Find_loop_eq_FindIf_loop s v s.length 0

/-- `AllOf` agrees with the library conjunction over the elements. -/
theorem AllOf_eq_all (s : List α) (f : α → Bool) : AllOf s f = s.all f := by
  induction s with
  | nil => rfl
  | cons e s ih =>
    cases hfe : f e <;> simp [AllOf, hfe, ih]

/-- `AnyOf` agrees with the library disjunction over the elements. -/
theorem AnyOf_eq_any (s : List α) (f : α → Bool) : AnyOf s f = s.any f := by
  induction s with
  | nil => rfl
  | cons e s ih =>
    cases hfe : f e <;> simp [AnyOf, hfe, ih]

/-- The loop of `Count` is the loop of `CountIf` run with the test `x == v`. -/
theorem Count_loop_eq_CountIf_loop [BEq α] (s : List α) (v : α) :
    ∀ (k i : Nat) (ret : Int),
      Count.loop s v k i ret = CountIf.loop s (fun x => x == v) k i ret := by
  intro k
  induction k with
  | zero => intro i ret; rfl
  | succ k ih =>
    intro i ret
    simp only [Count.loop, CountIf.loop]
    cases s[i]? with
    | none => rfl
    | some a => simp only [ih]

/-- From index `i` with `k` iterations left and `k + i = len(s)`, the loop of
`CountIf` adds to `ret` the number of elements at or after `i` that satisfy
`f`. -/
theorem CountIf_loop_spec (s : List α) (f : α → Bool) :
    ∀ (k i : Nat) (ret : Int), k + i = s.length →
      CountIf.loop s f k i ret = some (ret + ((s.drop i).countP f : Nat)) := by
  intro k
  induction k with
  | zero =>
    intro i ret hi
    have hdrop : s.drop i = [] := List.drop_eq_nil_of_le (by omega)
    simp [CountIf.loop, hdrop]
  | succ k ih =>
    intro i ret hi
    have h0 : i < s.length := by omega
    have hdrop : s.drop i = s[i] :: s.drop (i + 1) := List.drop_eq_getElem_cons h0
    simp only [CountIf.loop, List.getElem?_eq_getElem h0]
    rw [ih (i + 1) _ (by omega), hdrop, List.countP_cons]
    cases hf : f s[i] <;> simp [add_assoc, add_comm]

/-- The full counting scan returns the number of elements that satisfy `f`. -/
theorem CountIf_eq_countP (s : List α) (f : α → Bool) :
    CountIf s f = some ((s.countP f : Nat) : Int) := by
  have h := CountIf_loop_spec s f s.length 0 0 (by omega)
  simpa [CountIf] using h

/-- `Count` is `CountIf` run with the test `x == v`. -/
theorem Count_eq_CountIf_test [BEq α] (s : List α) (v : α) :
    Count s v = CountIf s (fun x => x == v) :=
  Count_loop_eq_CountIf_loop s v s.length 0 0

/-- The number of indices of `s` whose element satisfies `f` is the number of
elements of `s` that satisfy `f`. -/
theorem card_filter_index_eq_countP (f : α → Bool) :
    ∀ (s : List α),
      (Finset.univ.filter (fun i : Fin s.length => f s[i] = true)).card = s.countP f := by
  intro s
  induction s with
  | nil => simp
  | cons a t ih =>
    have hsucc := Fin.card_filter_univ_succ' (fun i : Fin (t.length + 1) => f (a :: t)[i] = true)
    have htail : (Finset.univ.filter
        (fun x : Fin t.length => f (a :: t)[x.succ] = true)).card = t.countP f := by
      rw [← ih]
      rfl
    have hhead : (if f (a :: t)[(0 : Fin (t.length + 1))] = true then 1 else 0)
        = (if f a = true then 1 else 0) := rfl
    rw [List.countP_cons, add_comm, ← hhead, ← htail]
    exact hsucc

/-- Some element satisfies `f` exactly when the element at some index does. -/
theorem any_iff_exists_index (s : List α) (f : α → Bool) :
    s.any f = true ↔ ∃ (i : Nat) (h : i < s.length), f s[i] = true := by
  rw [List.any_eq_true]
  constructor
  · rintro ⟨e, he, hp⟩
    obtain ⟨i, hi, rfl⟩ := List.getElem_of_mem he
    exact ⟨i, hi, hp⟩
  · rintro ⟨i, hi, hp⟩
    exact ⟨s[i], List.getElem_mem hi, hp⟩

/-- From index `i` with `k` iterations left and `k + i = len(s)`, the loop of
`Contains` reports whether an element at or after `i` compares equal to `v`. -/
theorem Contains_loop_spec [BEq α] (s : List α) (v : α) :
    ∀ (k i : Nat), k + i = s.length →
      Contains.loop s v k i = some ((s.drop i).any (fun x => x == v)) := by
  intro k
  induction k with
  | zero =>
    intro i hi
    have hdrop : s.drop i = [] := List.drop_eq_nil_of_le (by omega)
    simp [Contains.loop, hdrop]
  | succ k ih =>
    intro i hi
    have h0 : i < s.length := by omega
    have hdrop : s.drop i = s[i] :: s.drop (i + 1) := List.drop_eq_getElem_cons h0
    simp only [Contains.loop, List.getElem?_eq_getElem h0]
    rw [ih (i + 1) (by omega), hdrop, List.any_cons]
    cases hv : (s[i] == v) <;> simp

/-- The membership scan reports whether some element compares equal to `v`. -/
theorem Contains_eq_any [BEq α] (s : List α) (v : α) :
    Contains s v = some (s.any (fun x => x == v)) := by
  have h := Contains_loop_spec s v s.length 0 (by omega)
  simpa [Contains] using h

/-- The first-match scan returns a value, and that value differs from the
sentinel exactly when some element satisfies the test. -/
theorem FindIf_found_iff (s : List α) (f : α → Bool) :
    ∃ r : Int, FindIf s f = some r ∧ (r ≠ -1 ↔ s.any f = true) := by
  rcases FindIf_scan s f with ⟨i, hi, hres, hm, _⟩ | ⟨hres, hnone⟩
  · refine ⟨(i : Int), hres, ?_⟩
    constructor
    · intro _
      exact (any_iff_exists_index s f).mpr ⟨i, hi, hm⟩
    · intro _
      omega
  · refine ⟨-1, hres, ?_⟩
    constructor
    · intro h
      exact absurd rfl h
    · intro h
      obtain ⟨i, hi, hp⟩ := (any_iff_exists_index s f).mp h
      rw [hnone i hi] at hp
      exact absurd hp (by decide)

/-- The counting scan returns a value, and that value is positive exactly
when some element satisfies the test. -/
theorem CountIf_pos_iff (s : List α) (f : α → Bool) :
    ∃ n : Int, CountIf s f = some n ∧ (n > 0 ↔ s.any f = true) := by
  refine ⟨((s.countP f : Nat) : Int), CountIf_eq_countP s f, ?_⟩
  rw [List.any_eq_true, ← List.countP_pos_iff]
  omega

/-- With equal lengths, from index `i` with `k` iterations left and
`k + i = len(s1)`, the loop of `Equal` returns a value, which is true exactly
when the elements agree at every index at or after `i`. -/
theorem Equal_loop_spec [BEq α] (s1 s2 : List α) (hlen : s1.length = s2.length) :
    ∀ (k i : Nat), k + i = s1.length →
      ∃ b : Bool, Equal.loop s1 s2 k i = some b ∧
        (b = true ↔ ∀ (j : Nat) (h1 : j < s1.length) (h2 : j < s2.length),
            i ≤ j → (s1[j] == s2[j]) = true) := by
  intro k
  induction k with
  | zero =>
    intro i hi
    refine ⟨true, rfl, ?_⟩
    constructor
    · intro _ j h1 h2 hij
      omega
    · intro _
      rfl
  | succ k ih =>
    intro i hi
    have h1 : i < s1.length := by omega
    have h2 : i < s2.length := by omega
    cases hv : (s1[i] == s2[i])
    · refine ⟨false, ?_, ?_⟩
      · simp [Equal.loop, List.getElem?_eq_getElem h1, List.getElem?_eq_getElem h2,
          bne, hv]
      · constructor
        · intro h
          exact absurd h (by decide)
        · intro h
          have hi2 := h i h1 h2 (le_refl i)
          rw [hv] at hi2
          exact hi2
    · obtain ⟨b, hb, hiff⟩ := ih (i + 1) (by omega)
      refine ⟨b, ?_, ?_⟩
      · rw [← hb]
        simp [Equal.loop, List.getElem?_eq_getElem h1, List.getElem?_eq_getElem h2,
          bne, hv]
      · rw [hiff]
        constructor
        · intro h j hj1 hj2 hij
          by_cases hji : j = i
          · subst hji
            exact hv
          · exact h j hj1 hj2 (by omega)
        · intro h j hj1 hj2 hij
          exact h j hj1 hj2 (by omega)

/-- `Equal` returns a value, which is true exactly when the lengths are equal
and the elements agree at every index. -/
theorem Equal_spec [BEq α] (s1 s2 : List α) :
    ∃ b : Bool, Equal s1 s2 = some b ∧
      (b = true ↔ s1.length = s2.length ∧
        ∀ (j : Nat) (h1 : j < s1.length) (h2 : j < s2.length), (s1[j] == s2[j]) = true) := by
  by_cases hlen : s1.length = s2.length
  · obtain ⟨b, hb, hiff⟩ := Equal_loop_spec s1 s2 hlen s1.length 0 (by omega)
    refine ⟨b, ?_, ?_⟩
    · simp [Equal, hlen]
      rw [← hlen]
      exact hb
    · rw [hiff]
      constructor
      · intro h
        exact ⟨hlen, fun j h1 h2 => h j h1 h2 (Nat.zero_le j)⟩
      · intro h j h1 h2 _
        exact h.2 j h1 h2
  · refine ⟨false, ?_, ?_⟩
    · have hne : (s1.length : Int) ≠ (s2.length : Int) := by omega
      simp [Equal, hne]
    · constructor
      · intro h
        exact absurd h (by decide)
      · intro h
        exact absurd h.1 hlen

/-- The loop of `EqualIf` is the loop of `Equal` run on the projected
sequences. -/
theorem EqualIf_loop_eq_Equal_loop_map (s1 s2 : List α) (f : α → Bool) :
    ∀ (k i : Nat),
      EqualIf.loop s1 s2 f k i = Equal.loop (s1.map f) (s2.map f) k i := by
  intro k
  induction k with
  | zero => intro i; rfl
  | succ k ih =>
    intro i
    simp only [EqualIf.loop, Equal.loop, List.getElem?_map]
    cases s1[i]? <;> cases s2[i]? <;> simp [ih]

/-- `EqualIf` is `Equal` run on the projected sequences. -/
theorem EqualIf_eq_Equal_map (s1 s2 : List α) (f : α → Bool) :
    EqualIf s1 s2 f = Equal (s1.map f) (s2.map f) := by
  simp only [EqualIf, Equal, List.length_map, EqualIf_loop_eq_Equal_loop_map]

/-- Once the slots before `pre.length` hold `pre` and `suf` is still to be
visited, the loop of `ForEach` leaves `pre` followed by `f` applied to each
element of `suf`. -/
theorem ForEach_loop_spec (f : α → α) :
    ∀ (suf pre : List α),
      ForEach.loop f suf.length pre.length (pre ++ suf) = some (pre ++ suf.map f) := by
  intro suf
  induction suf with
  | nil =>
    intro pre
    simp [ForEach.loop]
  | cons a t ih =>
    intro pre
    have hget : (pre ++ a :: t)[pre.length]? = some a := by
      rw [List.getElem?_append_right (le_refl _)]
      simp
    have hset : (pre ++ a :: t).set pre.length (f a) = (pre ++ [f a]) ++ t := by simp
    have hnext := ih (pre ++ [f a])
    simp only [List.length_cons, ForEach.loop, hget, hset]
    simpa using hnext

/-- `ForEach` leaves the sequence of the images under `f`. -/
theorem ForEach_eq_map (s : List α) (f : α → α) : ForEach s f = some (s.map f) := by
  have h := ForEach_loop_spec f s []
  simpa [ForEach] using h

/-! ## Claims -/

/-- C1: for every sequence `s`, `AdjacentFind s` returns the least index `i`
with `i + 1 < len(s)` and `s[i] == s[i+1]` when there is one and `-1`
otherwise; hence the result is `-1` or lies in `[0, len(s) - 2]`, the empty
and the one-element sequences give `-1`, and `AdjacentFind [0,3,1,1] = 2`. -/
theorem AdjacentFind_least :
    (∀ (β : Type) [BEq β] (s : List β),
      ((∃ (i : Nat) (h : i + 1 < s.length),
          AdjacentFind s = some (i : Int) ∧ (s[i] == s[i + 1]) = true ∧
          ∀ (j : Nat) (hj : j < i), (s[j] == s[j + 1]) = false)
        ∨ (AdjacentFind s = some (-1) ∧
          ∀ (j : Nat) (hj : j + 1 < s.length), (s[j] == s[j + 1]) = false))
      ∧ (∃ r : Int, AdjacentFind s = some r ∧
          (r = -1 ∨ (0 ≤ r ∧ r ≤ (s.length : Int) - 2)))
      ∧ (s.length ≤ 1 → AdjacentFind s = some (-1)))
    ∧ AdjacentFind ([0, 3, 1, 1] : List Int) = some 2 := by
  refine ⟨?_, by decide⟩
  intro β _ s
  have key := AdjacentFind_loop_spec s s.length 0 (by omega)
  refine ⟨?_, ?_, ?_⟩
  · rcases key with ⟨r, hr, hres, _, hm, hmin⟩ | ⟨hres, hnone⟩
    · left
      exact ⟨r, hr, hres, hm, fun j hj => hmin j hj (Nat.zero_le j)⟩
    · right
      exact ⟨hres, fun j hj => hnone j hj (Nat.zero_le j)⟩
  · rcases key with ⟨r, hr, hres, _, _, _⟩ | ⟨hres, _⟩
    · exact ⟨(r : Int), hres, Or.inr ⟨by omega, by omega⟩⟩
    · exact ⟨-1, hres, Or.inl rfl⟩
  · intro hlen
    rcases key with ⟨r, hr, _, _, _, _⟩ | ⟨hres, _⟩
    · omega
    · exact hres

/-- C2: for every `x`, `y` and comparator `f`, `Max x y f` returns `x` if
`f x y` is true and `y` otherwise; it chooses between its two arguments and is
not a maximum; `Max 3 5 (x > y) = 5` and `Max "abc" "a" (x > y) = "abc"`. -/
theorem Max_chooser :
    (∀ (β : Type) (x y : β) (f : β → β → Bool),
      (f x y = true → Max x y f = x) ∧ (f x y = false → Max x y f = y)
      ∧ (Max x y f = x ∨ Max x y f = y))
    ∧ Max (3 : Int) 5 (fun x y => decide (x > y)) = 5
    ∧ Max "abc" "a" (fun x y => decide (x > y)) = "abc"
    ∧ Max (5 : Int) 3 (fun x y => decide (x < y)) = 3 := by
  have hstr : "abc" > "a" := by
    show "a" < "abc"
    rw [String.lt_iff_toList_lt]
    decide
  refine ⟨?_, by decide, by simp [Max, hstr], by decide⟩
  intro β x y f
  cases hf : f x y <;> simp [Max, hf]

/-- C3, as stated, fails: with `f x y` read as `x > y`, `f 3 5` is false and
`Max 3 5 f` is `5`, not `3`. -/
theorem Max_doc_comment_counterexample :
    decide ((3 : Int) > 5) = false
    ∧ Max (3 : Int) 5 (fun x y => decide (x > y)) = 5
    ∧ Max (3 : Int) 5 (fun x y => decide (x > y)) ≠ 3 := by
  decide

/-- C3, amended: for every `x`, `y` and comparator `f`, `Max x y f` returns
`x` if `f x y` returns true and returns `y` otherwise; in particular
`Max 3 5 (x > y) = 5`. -/
theorem Max_returns_first_when_true :
    (∀ (β : Type) (x y : β) (f : β → β → Bool),
      Max x y f = (match f x y with | true => x | false => y))
    ∧ Max (3 : Int) 5 (fun x y => decide (x > y)) = 5 := by
  refine ⟨?_, by decide⟩
  intro β x y f
  cases hf : f x y <;> simp [Max, hf]

/-- C4: for every sequence `s` and value `v`, `Find s v` is the least index
`i` with `s[i] == v` when some element equals `v`, and `-1` exactly when no
element of `s` equals `v`; `Find [3,5,7,11,13,17,19,23] 7 = 2`. -/
theorem Find_least :
    (∀ (β : Type) [BEq β] (s : List β) (v : β),
      ((∃ (i : Nat) (h : i < s.length),
          Find s v = some (i : Int) ∧ (s[i] == v) = true ∧
          ∀ (j : Nat) (hj : j < i), (s[j] == v) = false)
        ∨ (Find s v = some (-1) ∧
          ∀ (j : Nat) (hj : j < s.length), (s[j] == v) = false))
      ∧ (Find s v = some (-1) ↔
          ∀ (j : Nat) (hj : j < s.length), (s[j] == v) = false))
    ∧ Find ([3, 5, 7, 11, 13, 17, 19, 23] : List Int) 7 = some 2 := by
  refine ⟨?_, by decide⟩
  intro β _ s v
  rw [Find_eq_FindIf_test]
  exact ⟨FindIf_scan s (fun x => x == v), FindIf_sentinel_iff s (fun x => x == v)⟩

/-- C5: for every sequence `s` and predicate `p`, `FindIf s p` is the least
index `i` with `p s[i]` true when some element satisfies `p`, and `-1` exactly
when no element of `s` satisfies `p`; `FindIf [0,1,-1,3,-3,5,-5] (e < 0) = 2`. -/
theorem FindIf_least :
    (∀ (β : Type) (s : List β) (p : β → Bool),
      ((∃ (i : Nat) (h : i < s.length),
          FindIf s p = some (i : Int) ∧ p s[i] = true ∧
          ∀ (j : Nat) (hj : j < i), p s[j] = false)
        ∨ (FindIf s p = some (-1) ∧
          ∀ (j : Nat) (hj : j < s.length), p s[j] = false))
      ∧ (FindIf s p = some (-1) ↔
          ∀ (j : Nat) (hj : j < s.length), p s[j] = false))
    ∧ FindIf ([0, 1, -1, 3, -3, 5, -5] : List Int) (fun e => decide (e < 0)) = some 2 := by
  refine ⟨?_, by decide⟩
  intro β s p
  exact ⟨FindIf_scan s p, FindIf_sentinel_iff s p⟩

/-- C6: for every sequence `s` and predicate `p`, `AllOf s p` is true if and
only if `p` holds for every element of `s`; in particular `AllOf [] p` is
true. -/
theorem AllOf_iff_forall :
    ∀ (β : Type) (s : List β) (p : β → Bool),
      (AllOf s p = true ↔ ∀ (i : Nat) (h : i < s.length), p s[i] = true)
      ∧ (AllOf s p = true ↔ ∀ e ∈ s, p e = true)
      ∧ AllOf ([] : List β) p = true := by
  intro β s p
  refine ⟨?_, ?_, rfl⟩
  · rw [AllOf_eq_all, List.all_eq_true]
    constructor
    · intro h i hi
      exact h s[i] (List.getElem_mem hi)
    · intro h e he
      obtain ⟨i, hi, rfl⟩ := List.getElem_of_mem he
      exact h i hi
  · rw [AllOf_eq_all, List.all_eq_true]

/-- C7: for every sequence `s` and predicate `p`, `AnyOf s p` is true if and
only if `p` holds for at least one element of `s`; in particular
`AnyOf [] p` is false. -/
theorem AnyOf_iff_exists :
    ∀ (β : Type) (s : List β) (p : β → Bool),
      (AnyOf s p = true ↔ ∃ (i : Nat) (h : i < s.length), p s[i] = true)
      ∧ (AnyOf s p = true ↔ ∃ e ∈ s, p e = true)
      ∧ AnyOf ([] : List β) p = false := by
  intro β s p
  refine ⟨?_, ?_, rfl⟩
  · rw [AnyOf_eq_any, List.any_eq_true]
    constructor
    · rintro ⟨e, he, hp⟩
      obtain ⟨i, hi, rfl⟩ := List.getElem_of_mem he
      exact ⟨i, hi, hp⟩
    · rintro ⟨i, hi, hp⟩
      exact ⟨s[i], List.getElem_mem hi, hp⟩
  · rw [AnyOf_eq_any, List.any_eq_true]

/-- C8: for every sequence `s` and predicate `p`,
`AllOf s p = NOT AnyOf s (x -> NOT p x)`. -/
theorem AllOf_eq_not_AnyOf_not :
    ∀ (β : Type) (s : List β) (p : β → Bool),
      AllOf s p = !AnyOf s (fun x => !p x) := by
  intro β s p
  induction s with
  | nil => rfl
  | cons e s ih =>
    cases hpe : p e <;> simp [AllOf, AnyOf, hpe, ih]

/-- C9: for every sequence `s` and predicate `p`,
`NoneOf s p = NOT AnyOf s p`, so `NoneOf s p` is true if and only if `p`
returns false for every element of `s`, and it is true for the empty `s`. -/
theorem NoneOf_eq_not_AnyOf :
    ∀ (β : Type) (s : List β) (p : β → Bool),
      NoneOf s p = (!AnyOf s p)
      ∧ (NoneOf s p = true ↔ ∀ e ∈ s, p e = false)
      ∧ NoneOf ([] : List β) p = true := by
  intro β s p
  refine ⟨rfl, ?_, rfl⟩
  simp [NoneOf, AnyOf_eq_any]

/-- C10: for every sequence `s` and value `v`, `Count s v` equals the number
of indices `i` in `[0, len(s))` with `s[i] == v`;
`Count [1,1,2,3,4,2,1] 1 = 3`. -/
theorem Count_eq_card_indices :
    (∀ (β : Type) [BEq β] (s : List β) (v : β),
      Count s v = some
        (((Finset.univ.filter (fun i : Fin s.length => (s[i] == v) = true)).card : Nat) : Int))
    ∧ Count ([1, 1, 2, 3, 4, 2, 1] : List Int) 1 = some 3 := by
  refine ⟨?_, by decide⟩
  intro β _ s v
  rw [Count_eq_CountIf_test, CountIf_eq_countP,
    card_filter_index_eq_countP (fun x => x == v) s]

/-- C11: for every sequence `s` and value `v`, the three membership tests
agree, `Contains s v = (Count s v > 0) = (Find s v != -1)`, and
`Contains s v` is true if and only if some element of `s` equals `v`;
`Contains [3,5,7,11,13,17,19,23] 11 = true`. -/
theorem Contains_agrees_with_Count_and_Find :
    (∀ (β : Type) [BEq β] (s : List β) (v : β),
      ∃ (c : Bool) (n r : Int),
        Contains s v = some c ∧ Count s v = some n ∧ Find s v = some r
        ∧ (c = true ↔ n > 0) ∧ (n > 0 ↔ r ≠ -1)
        ∧ (c = true ↔ ∃ (i : Nat) (h : i < s.length), (s[i] == v) = true))
    ∧ Contains ([3, 5, 7, 11, 13, 17, 19, 23] : List Int) 11 = some true := by
  refine ⟨?_, by decide⟩
  intro β _ s v
  obtain ⟨n, hn, hnpos⟩ := CountIf_pos_iff s (fun x => x == v)
  obtain ⟨r, hr, hrne⟩ := FindIf_found_iff s (fun x => x == v)
  refine ⟨s.any (fun x => x == v), n, r, Contains_eq_any s v, ?_, ?_,
    hnpos.symm, hnpos.trans hrne.symm, any_iff_exists_index s (fun x => x == v)⟩
  · rw [Count_eq_CountIf_test, hn]
  · rw [Find_eq_FindIf_test, hr]

/-- C12: for every sequence `s` and predicate `p`, `CountIf s p` equals the
number of indices `i` in `[0, len(s))` for which `p s[i]` is true;
`CountIf [3,5,7,11,13,17,19,23] (i % 2 == 1) = 8`, with Go's truncated
remainder. -/
theorem CountIf_eq_card_indices :
    (∀ (β : Type) (s : List β) (p : β → Bool),
      CountIf s p = some
        (((Finset.univ.filter (fun i : Fin s.length => p s[i] = true)).card : Nat) : Int))
    ∧ CountIf ([3, 5, 7, 11, 13, 17, 19, 23] : List Int)
        (fun i => decide (Int.tmod i 2 = 1)) = some 8 := by
  refine ⟨?_, by decide⟩
  intro β s p
  rw [CountIf_eq_countP, card_filter_index_eq_countP p s]

/-- C13: for every sequence `s` and predicate `p`,
`(CountIf s p > 0) = (FindIf s p != -1)`: the counting scan finds a match
exactly when the first-match scan does. -/
theorem CountIf_pos_iff_FindIf_found :
    ∀ (β : Type) (s : List β) (p : β → Bool),
      ∃ (n r : Int), CountIf s p = some n ∧ FindIf s p = some r
        ∧ (n > 0 ↔ r ≠ -1) ∧ (decide (n > 0) = decide (r ≠ -1)) := by
  intro β s p
  obtain ⟨n, hn, hnpos⟩ := CountIf_pos_iff s p
  obtain ⟨r, hr, hrne⟩ := FindIf_found_iff s p
  have hiff : n > 0 ↔ r ≠ -1 := hnpos.trans hrne.symm
  exact ⟨n, r, hn, hr, hiff, decide_eq_decide.mpr hiff⟩

/-- C14: for every two sequences `s1`, `s2`, `Equal s1 s2` is true if and
only if `len(s1) = len(s2)` and `s1[i] == s2[i]` for every index `i`; it is
false whenever the lengths differ;
`Equal [3,5,7,11,13,17,19,23] [3,5,7,11,13,17,19] = false`. -/
theorem Equal_iff_same_length_and_elements :
    (∀ (β : Type) [BEq β] (s1 s2 : List β),
      ∃ b : Bool, Equal s1 s2 = some b
        ∧ (b = true ↔ s1.length = s2.length ∧
            ∀ (i : Nat) (h1 : i < s1.length) (h2 : i < s2.length), (s1[i] == s2[i]) = true)
        ∧ (s1.length ≠ s2.length → b = false))
    ∧ Equal ([3, 5, 7, 11, 13, 17, 19, 23] : List Int) [3, 5, 7, 11, 13, 17, 19] = some false
    ∧ Equal ([3, 5, 7, 11, 13, 17, 19, 23] : List Int) [3, 5, 7, 11, 13, 17, 19, 23] = some true
    ∧ Equal ([3, 5, 7] : List Int) [3, 5] = some false := by
  refine ⟨?_, by decide, by decide, by decide⟩
  intro β _ s1 s2
  obtain ⟨b, hb, hiff⟩ := Equal_spec s1 s2
  refine ⟨b, hb, hiff, ?_⟩
  intro hne
  cases b
  · rfl
  · exact absurd (hiff.mp rfl).1 hne

/-- C15, as stated, fails: the one-element sequence holding the floating-point
not-a-number value is not `Equal` to itself. -/
theorem Equal_not_reflexive_on_nan :
    Equal [GoFloat64.nan] [GoFloat64.nan] = some false
    ∧ Equal [GoFloat64.nan] [GoFloat64.nan] ≠ some true := by
  decide

/-- C15, amended: for every sequence `s`, the empty one included, each of
whose elements compares equal to itself, `Equal s s` is true. -/
theorem Equal_reflexive_of_reflexive_elements (β : Type) [BEq β] (s : List β)
    (hrefl : ∀ e ∈ s, (e == e) = true) : Equal s s = some true := by
  obtain ⟨b, hb, hiff⟩ := Equal_spec s s
  have hb2 : b = true :=
    hiff.mpr ⟨rfl, fun i h1 _ => hrefl s[i] (List.getElem_mem h1)⟩
  rw [hb, hb2]

/-- Witness for C15 amended: the sequence `[3, 5, 7]` of integers. -/
theorem Equal_reflexive_witness :
    (∀ e ∈ ([3, 5, 7] : List Int), (e == e) = true)
    ∧ Equal ([3, 5, 7] : List Int) [3, 5, 7] = some true :=
  ⟨by decide, Equal_reflexive_of_reflexive_elements Int [3, 5, 7] (by decide)⟩

/-- C16: for every two sequences `s1`, `s2` and boolean projection `p`,
`EqualIf s1 s2 p` is true if and only if `len(s1) = len(s2)` and
`p s1[i] = p s2[i]` for every index `i`; it equals `Equal (map p s1) (map p s2)`,
so it depends only on the projected sequences; `[3,9,7]` and `[3,5,7]` are
`EqualIf` under `isOdd` although they differ. -/
theorem EqualIf_iff_projections_agree :
    (∀ (β : Type) (s1 s2 : List β) (p : β → Bool),
      (∃ b : Bool, EqualIf s1 s2 p = some b
        ∧ (b = true ↔ s1.length = s2.length ∧
            ∀ (i : Nat) (h1 : i < s1.length) (h2 : i < s2.length), p s1[i] = p s2[i]))
      ∧ EqualIf s1 s2 p = Equal (s1.map p) (s2.map p)
      ∧ (∀ (t1 t2 : List β), t1.map p = s1.map p → t2.map p = s2.map p →
          EqualIf t1 t2 p = EqualIf s1 s2 p))
    ∧ EqualIf ([3, 9, 7] : List Int) [3, 5, 7] (fun i => decide (Int.tmod i 2 = 1)) = some true
    ∧ ([3, 9, 7] : List Int) ≠ [3, 5, 7]
    ∧ EqualIf ([3, 5, 7, 11, 13, 17, 19, 23] : List Int) [3, 9, 7, 11, 13, 17, 99, 23]
        (fun i => decide (Int.tmod i 2 = 0)) = some true := by
  refine ⟨?_, by decide, by decide, by decide⟩
  intro β s1 s2 p
  refine ⟨?_, EqualIf_eq_Equal_map s1 s2 p, ?_⟩
  · obtain ⟨b, hb, hiff⟩ := Equal_spec (s1.map p) (s2.map p)
    refine ⟨b, by rw [EqualIf_eq_Equal_map, hb], ?_⟩
    rw [hiff]
    simp only [List.length_map, List.getElem_map, beq_iff_eq]
  · intro t1 t2 h1 h2
    rw [EqualIf_eq_Equal_map, EqualIf_eq_Equal_map, h1, h2]

/-- C17: for every sequence `s` and transform `f`, taken as a function from
an element's current value to its new value, `ForEach s f` leaves a sequence
of the same length whose element at every index `i` is `f s[i]`, that is
`map f s`; `ForEach [3,5,7,11,13,17,19,23] (e - 1)` leaves
`[2,4,6,10,12,16,18,22]`. -/
theorem ForEach_maps_every_element :
    (∀ (β : Type) (s : List β) (f : β → β),
      ∃ t : List β, ForEach s f = some t
        ∧ t.length = s.length
        ∧ (∀ (i : Nat) (h : i < s.length) (ht : i < t.length), t[i] = f s[i])
        ∧ t = s.map f)
    ∧ ForEach ([3, 5, 7, 11, 13, 17, 19, 23] : List Int) (fun e => e - 1)
        = some [2, 4, 6, 10, 12, 16, 18, 22]
    ∧ ForEach ([0, 1, 3, 5] : List Int) (fun e => -e) = some [0, -1, -3, -5]
    ∧ ForEach ([1, 2, 4, 8, 16, 32, 64, 128] : List Int) (fun e => Int.tdiv e 2)
        = some [0, 1, 2, 4, 8, 16, 32, 64] := by
  refine ⟨?_, by decide, by decide, by decide⟩
  intro β s f
  refine ⟨s.map f, ForEach_eq_map s f, List.length_map s f, ?_, rfl⟩
  intro i h ht
  exact List.getElem_map f

/-- C18: for every sequence `s` and every involutive transform `f`
(`f (f x) = x` for all `x`), applying `ForEach` with `f` twice restores `s`. -/
theorem ForEach_twice_of_involutive (β : Type) (f : β → β)
    (hinv : ∀ x, f (f x) = x) (s : List β) :
    (ForEach s f).bind (fun t => ForEach t f) = some s := by
  rw [ForEach_eq_map, Option.some_bind, ForEach_eq_map, List.map_map]
  have hid : f ∘ f = id := funext hinv
  rw [hid, List.map_id]

/-- Witness for C18: negation on the integers, on the sequence `[0, 1, 3, 5]`
of the test. -/
theorem ForEach_twice_negation_witness :
    (∀ x : Int, (fun e : Int => -e) ((fun e : Int => -e) x) = x)
    ∧ (ForEach ([0, 1, 3, 5] : List Int) (fun e => -e)).bind
        (fun t => ForEach t (fun e => -e)) = some [0, 1, 3, 5] :=
  ⟨fun x => neg_neg x,
    ForEach_twice_of_involutive Int (fun e => -e) (fun x => neg_neg x) [0, 1, 3, 5]⟩

/-- C19: every operation returns on every sequence, the empty one included,
and no index access is out of range: no function reaches the out-of-range
branch `none` of the indexing embedding.  `AdjacentFind` reads `s[i+1]` only
behind its guard, so its loop returns from every iteration it can reach, and
`Equal` and `EqualIf` read `s2[i]` only after the lengths were found equal;
without that check the loop of `Equal` does run out of range. -/
theorem index_accesses_in_range :
    (∀ (β : Type) [BEq β] (s s2 : List β) (v : β) (p : β → Bool) (f : β → β),
      AdjacentFind s ≠ none ∧ Count s v ≠ none ∧ CountIf s p ≠ none
      ∧ Contains s v ≠ none ∧ Equal s s2 ≠ none ∧ EqualIf s s2 p ≠ none
      ∧ Find s v ≠ none ∧ FindIf s p ≠ none ∧ ForEach s f ≠ none
      ∧ (∀ (k i : Nat), k + i = s.length → AdjacentFind.loop s k i ≠ none))
    ∧ (∀ (β : Type) [BEq β] (v : β) (p : β → Bool) (f : β → β),
      AdjacentFind ([] : List β) = some (-1) ∧ Count ([] : List β) v = some 0
      ∧ CountIf ([] : List β) p = some 0 ∧ Contains ([] : List β) v = some false
      ∧ Equal ([] : List β) [] = some true ∧ EqualIf ([] : List β) [] p = some true
      ∧ Find ([] : List β) v = some (-1) ∧ FindIf ([] : List β) p = some (-1)
      ∧ ForEach ([] : List β) f = some [])
    ∧ Equal ([1] : List Int) [] = some false
    ∧ Equal.loop ([1] : List Int) [] 1 0 = none := by
  refine ⟨?_, ?_, by decide, by decide⟩
  · intro β _ s s2 v p f
    have hAdj : ∀ (k i : Nat), k + i = s.length → AdjacentFind.loop s k i ≠ none := by
      intro k i hki
      rcases AdjacentFind_loop_spec s k i hki with ⟨r, _, hres, _⟩ | ⟨hres, _⟩
      · rw [hres]
        exact Option.some_ne_none _
      · rw [hres]
        exact Option.some_ne_none _
    obtain ⟨b, hb, _⟩ := Equal_spec s s2
    obtain ⟨c, hc, _⟩ := Equal_spec (s.map p) (s2.map p)
    obtain ⟨r, hr, _⟩ := FindIf_found_iff s (fun x => x == v)
    obtain ⟨q, hq, _⟩ := FindIf_found_iff s p
    refine ⟨hAdj s.length 0 (by omega), ?_, ?_, ?_, ?_, ?_, ?_, ?_, ?_, hAdj⟩
    · rw [Count_eq_CountIf_test, CountIf_eq_countP]
      exact Option.some_ne_none _
    · rw [CountIf_eq_countP]
      exact Option.some_ne_none _
    · rw [Contains_eq_any]
      exact Option.some_ne_none _
    · rw [hb]
      exact Option.some_ne_none _
    · rw [EqualIf_eq_Equal_map, hc]
      exact Option.some_ne_none _
    · rw [Find_eq_FindIf_test, hr]
      exact Option.some_ne_none _
    · rw [hq]
      exact Option.some_ne_none _
    · rw [ForEach_eq_map]
      exact Option.some_ne_none _
  · intro β _ v p f
    exact ⟨rfl, rfl, rfl, rfl, rfl, rfl, rfl, rfl, rfl⟩

/-- C20: each equality-based function coincides with its predicate-based
counterpart run with the predicate `x == v`: `Find s v = FindIf s (x == v)`,
`Count s v = CountIf s (x == v)` and `Contains s v = AnyOf s (x == v)`. -/
theorem equality_functions_refine_predicate_functions :
    ∀ (β : Type) [BEq β] (s : List β) (v : β),
      Find s v = FindIf s (fun x => x == v)
      ∧ Count s v = CountIf s (fun x => x == v)
      ∧ Contains s v = some (AnyOf s (fun x => x == v)) := by
  intro β _ s v
  refine ⟨Find_eq_FindIf_test s v, Count_eq_CountIf_test s v, ?_⟩
  rw [Contains_eq_any, AnyOf_eq_any]

end Slice
